import Mathlib

/-!
Verification of the SHEM simulator core (src/hooks/useSimulation.ts and the
constants in src/App.tsx).  The physics tick, the metrics computation and the
pattern injector are embedded over the real numbers; JavaScript's truncated
remainder operator and `Math.atan2` are modelled explicitly.  Randomness
(`Math.random`) is modelled by explicit draw functions whose values lie in
`[0, 1)`.
-/

open scoped Classical

noncomputable section

namespace Shem

/-- Per-node record, from the `GridNode` interface in `types.ts`. -/
structure Node where
  theta : ℝ
  omega : ℝ
  r : ℝ
  alpha : ℝ
  isTitan : Bool
  isSpark : Bool
  identity : Option String := none
  dataSignature : Option String := none

/-- Constant `TARGET_AMP` from constants: the literal `0.7071`. -/
def TARGET_AMP : ℝ := 0.7071

/-- Constant `LAMBDA_PLAST` from constants. -/
def LAMBDA_PLAST : ℝ := 0.012

/-- Constant `GAMMA_PLAST` from constants. -/
def GAMMA_PLAST : ℝ := 0.008

/-- Constant `GOLDEN_ANGLE = 137.508 * (Math.PI / 180)` from `injectPattern`. -/
def GOLDEN_ANGLE : ℝ := 137.508 * (Real.pi / 180)

/-- Constant `SPREAD = 3.5` from `injectPattern`. -/
def SPREAD : ℝ := 3.5

/-- Simulation configuration, from the `SimulationConfig` interface. -/
structure SimulationConfig where
  coupling : ℝ
  noise : ℝ
  dt : ℝ
  gridSize : ℕ

/-- The grid: a fixed-length, row-major collection of `n * n` nodes. -/
def Grid (n : ℕ) := Fin (n * n) → Node

/-- Row-major index bound: `y * n + x < n * n` when `y < n` and `x < n`. -/
theorem rowcol_lt {n y x : ℕ} (hy : y < n) (hx : x < n) : y * n + x < n * n := by
  have h1 : y * n + x < y * n + n := Nat.add_lt_add_left hx _
  have h2 : y * n + n = (y + 1) * n := by ring
  have h3 : (y + 1) * n ≤ n * n := Nat.mul_le_mul_right n hy
  omega

/-- A `Fin (n * n)` index forces `0 < n`. -/
theorem pos_of_idx {n : ℕ} (idx : Fin (n * n)) : 0 < n := by
  rcases Nat.eq_zero_or_pos n with h | h
  · exact absurd idx.isLt (by simp [h])
  · exact h

/-- Function `getNeighbors`: the four toroidal neighbours (left, right, up, down) of a
row-major index, exactly as computed with modular arithmetic in the source. -/
def getNeighbors {n : ℕ} (idx : Fin (n * n)) : List (Fin (n * n)) :=
  have hn : 0 < n := pos_of_idx idx
  let x := idx.val % n
  let y := idx.val / n
  have hx : x < n := Nat.mod_lt _ hn
  have hy : y < n := Nat.div_lt_of_lt_mul (by
    have := idx.isLt
    omega)
  [⟨y * n + (x + n - 1) % n, rowcol_lt hy (Nat.mod_lt _ hn)⟩,
   ⟨y * n + (x + 1) % n, rowcol_lt hy (Nat.mod_lt _ hn)⟩,
   ⟨(y + n - 1) % n * n + x, rowcol_lt (Nat.mod_lt _ hn) hx⟩,
   ⟨(y + 1) % n * n + x, rowcol_lt (Nat.mod_lt _ hn) hx⟩]

/-- JavaScript truncation toward zero (the implicit rounding in the `%`
operator on number operands). -/
def jsTrunc (x : ℝ) : ℤ := if 0 ≤ x then ⌊x⌋ else ⌈x⌉

/-- JavaScript's `%` remainder: `a - b * trunc(a / b)`.  For a negative
dividend and positive divisor the result is negative or zero. -/
def jsMod (a b : ℝ) : ℝ := a - b * (jsTrunc (a / b) : ℝ)

/-- Model of `Math.atan2(y, x)`: polar angle of the point `(x, y)`, in `(-π, π]`. -/
def atan2 (y x : ℝ) : ℝ :=
  if 0 < x then Real.arctan (y / x)
  else if x < 0 then
    (if 0 ≤ y then Real.arctan (y / x) + Real.pi else Real.arctan (y / x) - Real.pi)
  else
    (if 0 < y then Real.pi / 2 else if y < 0 then -(Real.pi / 2) else 0)

/-- One node's update inside the per-node loop of `updatePhysics`. -/
def stepNode {n : ℕ} (g : Grid n) (cfg : SimulationConfig)
    (rnd : Fin (n * n) → ℝ × ℝ) (i : Fin (n * n)) : Node :=
  let node := g i
  let X : Fin (n * n) → ℝ := fun k => (g k).r * Real.cos (g k).theta
  let Y : Fin (n * n) → ℝ := fun k => (g k).r * Real.sin (g k).theta
  if node.isTitan then
    { node with theta := node.theta + node.omega * cfg.dt * 0.1 }
  else
    let nbrs := getNeighbors i
    let diffX := (nbrs.map (fun k => X k - X i)).sum
    let diffY := (nbrs.map (fun k => Y k - Y i)).sum
    let phasePull := (nbrs.map (fun k => Real.sin ((g k).theta - node.theta))).sum
    let r2 := node.r * node.r
    let noiseX := ((rnd i).1 - 0.5) * 2 * cfg.noise
    let noiseY := ((rnd i).2 - 0.5) * 2 * cfg.noise
    let dX := (node.alpha - r2) * X i - node.omega * Y i + cfg.coupling * diffX + noiseX
    let dY := (node.alpha - r2) * Y i + node.omega * X i + cfg.coupling * diffY + noiseY
    let nextX := X i + dX * cfg.dt
    let nextY := Y i + dY * cfg.dt
    let nextR0 := Real.sqrt (nextX * nextX + nextY * nextY)
    let t0 := atan2 nextY nextX
    let nextTheta := if t0 < 0 then t0 + 2 * Real.pi else t0
    let dOmega := LAMBDA_PLAST * cfg.coupling * phasePull
    let nextOmega := node.omega + dOmega * cfg.dt
    let dAlpha := GAMMA_PLAST * (TARGET_AMP - node.r) * node.r
    let nextAlpha0 := node.alpha + dAlpha * cfg.dt
    let nextR := min (max nextR0 0.1) 2.0
    let nextAlpha := min (max nextAlpha0 (-1.0)) 2.0
    { node with r := nextR, theta := nextTheta, omega := nextOmega, alpha := nextAlpha }

/-- The grid produced by one `updatePhysics` pass (Jacobi update into a fresh
array). -/
def tickGrid {n : ℕ} (g : Grid n) (cfg : SimulationConfig)
    (rnd : Fin (n * n) → ℝ × ℝ) : Grid n :=
  fun i => stepNode g cfg rnd i

/-- The phase-histogram bin index used by the entropy computation:
`Math.min(Math.floor(theta / (2π) * 36), 35)`. -/
def jsBin (theta : ℝ) : ℤ := min ⌊theta / (2 * Real.pi) * 36⌋ 35

/-- Number of nodes whose clamped bin index equals `b` (the `bins` array). -/
def binCount {n : ℕ} (g : Grid n) (b : Fin 36) : ℕ :=
  ∑ i, if jsBin (g i).theta = (b : ℤ) then 1 else 0

/-- One bin's contribution to the Shannon entropy (`if (p > 0) entropy -= p * log p`). -/
def entropyTerm (p : ℝ) : ℝ := if 0 < p then -(p * Real.log p) else 0

/-- Normalized Shannon entropy of a grid's 36-bin phase histogram. -/
def entropyOf {n : ℕ} (g : Grid n) : ℝ :=
  (∑ b : Fin 36, entropyTerm ((binCount g b : ℝ) / ((n * n : ℕ) : ℝ))) / Real.log 36

/-- Kuramoto order parameter `R` of a grid's phases. -/
def coherenceOf {n : ℕ} (g : Grid n) : ℝ :=
  Real.sqrt (((∑ i, Real.sin ((g i).theta)) / ((n * n : ℕ) : ℝ)) ^ 2 +
    ((∑ i, Real.cos ((g i).theta)) / ((n * n : ℕ) : ℝ)) ^ 2)

/-- One full `updatePhysics` call: the next grid together with the recorded
`(coherence, normalizedEntropy)` pair.  The sine/cosine sums are accumulated
over the incoming grid, the grid reference is then replaced, and the entropy
histogram is computed from the already-replaced grid, as in the source. -/
def tick {n : ℕ} (g : Grid n) (cfg : SimulationConfig)
    (rnd : Fin (n * n) → ℝ × ℝ) : Grid n × ℝ × ℝ :=
  let sinSum := ∑ i, Real.sin ((g i).theta)
  let cosSum := ∑ i, Real.cos ((g i).theta)
  let next : Grid n := tickGrid g cfg rnd
  let R := Real.sqrt ((sinSum / ((n * n : ℕ) : ℝ)) ^ 2 + (cosSum / ((n * n : ℕ) : ℝ)) ^ 2)
  let entropy := ∑ b : Fin 36, entropyTerm ((binCount next b : ℝ) / ((n * n : ℕ) : ℝ))
  (next, R, entropy / Real.log 36)

/-- A recorded metrics sample (`SimulationMetrics`). -/
structure Metric where
  coherence : ℝ
  entropy : ℝ
  step : ℕ

/-- Engine state: grid, step counter and the rolling metrics history. -/
structure SimState (n : ℕ) where
  grid : Grid n
  step : ℕ
  history : List Metric

/-- One animation tick: run `updatePhysics`, bump the step counter, and append
the sample to the history truncated to its 100 most recent entries
(`[...metricsRef.current.slice(-100), newMetric]`). -/
def tickState {n : ℕ} (s : SimState n) (cfg : SimulationConfig)
    (rnd : Fin (n * n) → ℝ × ℝ) : SimState n :=
  let out := tick s.grid cfg rnd
  { grid := out.1
    step := s.step + 1
    history := s.history.drop (s.history.length - 100) ++
      [{ coherence := out.2.1, entropy := out.2.2, step := s.step + 1 }] }

/-- Iterated ticks with a stream of per-tick noise draws. -/
def runState {n : ℕ} (s : SimState n) (cfg : SimulationConfig)
    (rnds : ℕ → Fin (n * n) → ℝ × ℝ) : ℕ → SimState n
  | 0 => s
  | k + 1 => tickState (runState s cfg rnds k) cfg (rnds k)

/-- The six injection pattern kinds. -/
inductive Pattern
  | pulse
  | spiral
  | chaos
  | stabilize
  | unity
  | elysium
  deriving DecidableEq

/-- An injection command (`InjectionParams`; the opaque `message` field is not
consumed by the engine and is omitted). -/
structure InjectionParams where
  targetX : ℤ
  targetY : ℤ
  radius : ℝ
  intensity : ℝ
  pattern : Pattern

/-- Target-coordinate clamping: `Math.min(Math.max(t, 0), GRID_SIZE - 1)`. -/
def clampCoord (n : ℕ) (t : ℤ) : ℤ := min (max t 0) ((n : ℤ) - 1)

/-- The `i`-th phyllotaxis placement of the elysium pattern: the lattice cell
`(⌊cX + dx⌋, ⌊cY + dy⌋)`, or `none` when it falls outside the grid. -/
def elysiumPlace (n : ℕ) (cX cY : ℤ) (i : ℕ) : Option (Fin (n * n)) :=
  let rPos := SPREAD * Real.sqrt ((i : ℝ) + 1)
  let thetaPos := (i : ℝ) * GOLDEN_ANGLE
  let x : ℤ := ⌊(cX : ℝ) + rPos * Real.cos thetaPos⌋
  let y : ℤ := ⌊(cY : ℝ) + rPos * Real.sin thetaPos⌋
  if h : 0 ≤ x ∧ x < (n : ℤ) ∧ 0 ≤ y ∧ y < (n : ℤ) then
    some ⟨y.toNat * n + x.toNat, rowcol_lt (by omega) (by omega)⟩
  else none

/-- The overwrite applied to a placed elysium cell. -/
def titanize (old : Node) (i : ℕ) : Node :=
  { old with
    isTitan := true
    isSpark := false
    omega := 0
    theta := jsMod ((i : ℝ) * GOLDEN_ANGLE) (2 * Real.pi)
    r := 1.0
    alpha := 1.0 }

/-- One iteration of the elysium placement loop. -/
def elysiumStep {n : ℕ} (cX cY : ℤ) (acc : Grid n) (i : ℕ) : Grid n :=
  match elysiumPlace n cX cY i with
  | some idx => Function.update acc idx (titanize (acc idx) i)
  | none => acc

/-- The full elysium placement loop (`for i in 0..50`). -/
def elysiumInject {n : ℕ} (g : Grid n) (cX cY : ℤ) : Grid n :=
  (List.range 50).foldl (elysiumStep cX cY) g

/-- The set of cells hit by at least one in-bounds phyllotaxis placement. -/
def placedCells (n : ℕ) (cX cY : ℤ) : Finset (Fin (n * n)) :=
  ((List.range 50).filterMap (elysiumPlace n cX cY)).toFinset

/-- The per-cell body of the non-elysium injection scan. -/
def injectCell {n : ℕ} (g : Grid n) (p : InjectionParams)
    (rnd : Fin (n * n) → ℝ) (i : Fin (n * n)) : Node :=
  let x := i.val % n
  let y := i.val / n
  let cX := clampCoord n p.targetX
  let cY := clampCoord n p.targetY
  let dx : ℝ := (x : ℝ) - (cX : ℝ)
  let dy : ℝ := (y : ℝ) - (cY : ℝ)
  let dist := Real.sqrt (dx * dx + dy * dy)
  let node := g i
  if dist ≤ p.radius then
    match p.pattern with
    | Pattern.unity =>
        { node with
          theta := 30 * (Real.pi / 180)
          r := 1.0
          alpha := 1.0
          omega := if node.isSpark || !node.isTitan then 1.0 else node.omega }
    | Pattern.pulse =>
        { node with theta := jsMod (node.theta + Real.sin dist * p.intensity) (2 * Real.pi) }
    | Pattern.spiral =>
        { node with theta := jsMod (node.theta + atan2 dy dx * p.intensity) (2 * Real.pi) }
    | Pattern.chaos =>
        { node with theta := jsMod (node.theta + rnd i * 2 * Real.pi * p.intensity) (2 * Real.pi) }
    | Pattern.stabilize =>
        { node with theta := 0, r := TARGET_AMP }
    | Pattern.elysium => node
  else node

/-- Function `injectPattern`: the elysium branch runs the phyllotaxis loop; every other
pattern runs the per-cell radius scan. -/
def injectPattern {n : ℕ} (g : Grid n) (p : InjectionParams)
    (rnd : Fin (n * n) → ℝ) : Grid n :=
  if p.pattern = Pattern.elysium then
    elysiumInject g (clampCoord n p.targetX) (clampCoord n p.targetY)
  else
    fun i => injectCell g p rnd i

/-- One initial node of `initGrid`, as a function of its seven uniform draws. -/
def mkInitNode (u1 u2 u3 u4 u5 u6 u7 : ℝ) : Node :=
  let theta := u1 * 2 * Real.pi
  let isTitan : Bool := decide (u2 < 0.01)
  let isSpark : Bool := !isTitan && decide (u3 < 0.05)
  let omegaBase := 1.0 + (u4 - 0.5) * 0.5
  let omegaSpark := if isSpark then 3.0 + (u5 - 0.5) * 2.0 else omegaBase
  let omega := if isTitan then 0.0 else omegaSpark
  let r := TARGET_AMP + (u6 - 0.5) * 0.1
  let alpha := 0.1 + u7 * 0.1
  { theta := theta
    omega := omega
    r := r
    alpha := alpha
    isTitan := isTitan
    isSpark := isSpark }

/-- A grid producible by `initGrid`: every node arises from uniform draws in
`[0, 1)`. -/
def IsInitGrid {n : ℕ} (g : Grid n) : Prop :=
  ∀ i, ∃ u : Fin 7 → ℝ, (∀ k, 0 ≤ u k ∧ u k < 1) ∧
    g i = mkInitNode (u 0) (u 1) (u 2) (u 3) (u 4) (u 5) (u 6)

/-- Configuration constraints from the spec: `K ≥ 0`, `η ≥ 0`, `dt > 0`. -/
def ValidConfig (cfg : SimulationConfig) : Prop :=
  0 ≤ cfg.coupling ∧ 0 ≤ cfg.noise ∧ 0 < cfg.dt

/-- Injection-command constraint from the spec: `radius ≥ 0`. -/
def ValidParams (p : InjectionParams) : Prop := 0 ≤ p.radius

/-- Noise draws lie in `[0, 1)` (`Math.random`). -/
def ValidDraws2 {n : ℕ} (rnd : Fin (n * n) → ℝ × ℝ) : Prop :=
  ∀ i, 0 ≤ (rnd i).1 ∧ (rnd i).1 < 1 ∧ 0 ≤ (rnd i).2 ∧ (rnd i).2 < 1

/-- Chaos draws lie in `[0, 1)` (`Math.random`). -/
def ValidDraws1 {n : ℕ} (rnd : Fin (n * n) → ℝ) : Prop :=
  ∀ i, 0 ≤ rnd i ∧ rnd i < 1

/-- Grid states reachable from initialization by physics ticks and pattern
injections. -/
inductive Reachable {n : ℕ} : Grid n → Prop
  | init (g : Grid n) : IsInitGrid g → Reachable g
  | tick (g : Grid n) (cfg : SimulationConfig) (rnd : Fin (n * n) → ℝ × ℝ) :
      Reachable g → ValidConfig cfg → ValidDraws2 rnd → Reachable (tickGrid g cfg rnd)
  | inject (g : Grid n) (p : InjectionParams) (rnd : Fin (n * n) → ℝ) :
      Reachable g → ValidParams p → ValidDraws1 rnd → Reachable (injectPattern g p rnd)

/-! ## Basic facts about the per-node update -/

theorem stepNode_titan {n : ℕ} (g : Grid n) (cfg : SimulationConfig)
    (rnd : Fin (n * n) → ℝ × ℝ) (i : Fin (n * n)) (h : (g i).isTitan = true) :
    stepNode g cfg rnd i =
      { g i with theta := (g i).theta + (g i).omega * cfg.dt * 0.1 } := by
  unfold stepNode
  simp [h]

/-- For a non-Titan node the committed `r` and `alpha` are clamped values. -/
theorem stepNode_clamped {n : ℕ} (g : Grid n) (cfg : SimulationConfig)
    (rnd : Fin (n * n) → ℝ × ℝ) (i : Fin (n * n)) (h : (g i).isTitan = false) :
    ∃ v w, (stepNode g cfg rnd i).r = min (max v 0.1) 2.0 ∧
      (stepNode g cfg rnd i).alpha = min (max w (-1.0)) 2.0 := by
  unfold stepNode
  simp only [h, Bool.false_eq_true, if_false]
  exact ⟨_, _, rfl, rfl⟩

/-- The update never changes `isTitan`, `isSpark`, `identity`, `dataSignature`. -/
theorem stepNode_flags {n : ℕ} (g : Grid n) (cfg : SimulationConfig)
    (rnd : Fin (n * n) → ℝ × ℝ) (i : Fin (n * n)) :
    (stepNode g cfg rnd i).isTitan = (g i).isTitan ∧
      (stepNode g cfg rnd i).isSpark = (g i).isSpark ∧
      (stepNode g cfg rnd i).identity = (g i).identity ∧
      (stepNode g cfg rnd i).dataSignature = (g i).dataSignature := by
  unfold stepNode
  rcases Bool.eq_false_or_eq_true (g i).isTitan with h | h <;> simp [h]

/-- Concrete bounded node for witnesses. -/
def wNode : Node :=
  { theta := 0, omega := 0, r := 1, alpha := 0, isTitan := false, isSpark := false }

/-- Concrete configuration for witnesses. -/
def wCfg : SimulationConfig := { coupling := 0, noise := 0, dt := 1, gridSize := 1 }

/-- Concrete one-node grid for witnesses. -/
def wGrid1 : Grid 1 := fun _ => wNode

/-- Concrete noise draws for witnesses. -/
def wRnd1 : Fin (1 * 1) → ℝ × ℝ := fun _ => (0, 0)

/-- C3: after every physics tick, every node of the resulting grid has
`r ∈ [0.1, 2.0]` and `alpha ∈ [-1.0, 2.0]`, for every input grid whose nodes
already satisfy these bounds and every configuration with `coupling ≥ 0`,
`noise ≥ 0`, `dt > 0`. -/
theorem c3_clamp_invariant {n : ℕ} (g : Grid n) (cfg : SimulationConfig)
    (rnd : Fin (n * n) → ℝ × ℝ)
    (hg : ∀ i, 0.1 ≤ (g i).r ∧ (g i).r ≤ 2.0 ∧ -1.0 ≤ (g i).alpha ∧ (g i).alpha ≤ 2.0)
    (hk : 0 ≤ cfg.coupling) (hnz : 0 ≤ cfg.noise) (hdt : 0 < cfg.dt) :
    ∀ i, 0.1 ≤ (tickGrid g cfg rnd i).r ∧ (tickGrid g cfg rnd i).r ≤ 2.0 ∧
      -1.0 ≤ (tickGrid g cfg rnd i).alpha ∧ (tickGrid g cfg rnd i).alpha ≤ 2.0 := by
  intro i
  simp only [tickGrid]
  rcases Bool.eq_false_or_eq_true (g i).isTitan with ht | ht
  swap
  · obtain ⟨v, w, hv, hw⟩ := stepNode_clamped g cfg rnd i ht
    rw [hv, hw]
    refine ⟨le_min (le_max_right _ _) (by norm_num), min_le_right _ _,
      le_min (le_max_right _ _) (by norm_num), min_le_right _ _⟩
  · rw [stepNode_titan g cfg rnd i ht]
    simpa using hg i

/-- Witness for C3 at a concrete grid and configuration. -/
theorem c3_clamp_invariant_witness :
    0.1 ≤ (tickGrid wGrid1 wCfg wRnd1 ⟨0, by norm_num⟩).r ∧
      (tickGrid wGrid1 wCfg wRnd1 ⟨0, by norm_num⟩).r ≤ 2.0 ∧
      -1.0 ≤ (tickGrid wGrid1 wCfg wRnd1 ⟨0, by norm_num⟩).alpha ∧
      (tickGrid wGrid1 wCfg wRnd1 ⟨0, by norm_num⟩).alpha ≤ 2.0 :=
  c3_clamp_invariant wGrid1 wCfg wRnd1
    (fun _ => by norm_num [wGrid1, wNode])
    (le_refl 0) (le_refl 0) (by norm_num [wCfg]) ⟨0, by norm_num⟩

/-! ## The JavaScript remainder and `Math.atan2` -/

theorem jsMod_nonneg_lt {a b : ℝ} (ha : 0 ≤ a) (hb : 0 < b) :
    0 ≤ jsMod a b ∧ jsMod a b < b := by
  have hba : 0 ≤ a / b := div_nonneg ha hb.le
  have hmod : jsMod a b = b * Int.fract (a / b) := by
    unfold jsMod jsTrunc
    rw [if_pos hba, Int.fract, mul_sub, mul_div_cancel₀ _ hb.ne']
  rw [hmod]
  constructor
  · exact mul_nonneg hb.le (Int.fract_nonneg _)
  · exact mul_lt_of_lt_one_right hb (Int.fract_lt_one _)

theorem jsMod_neg {a b : ℝ} (ha : a < 0) (hb : 0 < b) :
    -b < jsMod a b ∧ jsMod a b ≤ 0 := by
  have hba : ¬ 0 ≤ a / b := by
    rw [not_le]
    exact div_neg_of_neg_of_pos ha hb
  have hmod : jsMod a b = b * (a / b - (⌈a / b⌉ : ℝ)) := by
    unfold jsMod jsTrunc
    rw [if_neg hba, mul_sub, mul_div_cancel₀ _ hb.ne']
  have h1 : a / b ≤ (⌈a / b⌉ : ℝ) := Int.le_ceil _
  have h2 : (⌈a / b⌉ : ℝ) < a / b + 1 := Int.ceil_lt_add_one _
  rw [hmod]
  constructor
  · nlinarith
  · nlinarith

/-- For a positive divisor, the JavaScript remainder always lies strictly
between `-b` and `b`. -/
theorem jsMod_range (a : ℝ) {b : ℝ} (hb : 0 < b) :
    -b < jsMod a b ∧ jsMod a b < b := by
  rcases lt_or_le a 0 with ha | ha
  · obtain ⟨h1, h2⟩ := jsMod_neg ha hb
    exact ⟨h1, lt_of_le_of_lt h2 hb⟩
  · obtain ⟨h1, h2⟩ := jsMod_nonneg_lt ha hb
    exact ⟨lt_of_lt_of_le (neg_neg_of_pos hb) h1, h2⟩

theorem atan2_range (y x : ℝ) : -Real.pi < atan2 y x ∧ atan2 y x ≤ Real.pi := by
  have hpi := Real.pi_pos
  have h1 := Real.arctan_lt_pi_div_two (y / x)
  have h2 := Real.neg_pi_div_two_lt_arctan (y / x)
  unfold atan2
  split_ifs with hx hx2 hy hy2 hy3
  · constructor <;> linarith
  · have hyx : y / x ≤ 0 := div_nonpos_of_nonneg_of_nonpos hy hx2.le
    have : Real.arctan (y / x) ≤ 0 := by
      have := Real.arctan_strictMono.monotone hyx
      rwa [Real.arctan_zero] at this
    constructor <;> linarith
  · have hyx : 0 < y / x := div_pos_of_neg_of_neg (by linarith) hx2
    have : 0 < Real.arctan (y / x) := by
      have := Real.arctan_strictMono hyx
      rwa [Real.arctan_zero] at this
    constructor <;> linarith
  · constructor <;> linarith
  · constructor <;> linarith
  · constructor <;> linarith

/-- Value `atan2(0, x) = π` for negative `x` (the angle of the negative real axis). -/
theorem atan2_zero_neg {x : ℝ} (hx : x < 0) : atan2 0 x = Real.pi := by
  unfold atan2
  rw [if_neg (by linarith), if_pos hx, if_pos le_rfl, zero_div, Real.arctan_zero, zero_add]

/-- Value `atan2(0, x) = 0` for positive `x`. -/
theorem atan2_zero_pos {x : ℝ} (hx : 0 < x) : atan2 0 x = 0 := by
  unfold atan2
  rw [if_pos hx, zero_div, Real.arctan_zero]

/-- C10: under `theta ∈ [0, 2π)` the clamped bin index lies in `[0, 35]`
(every bin-array access is in bounds); the clamp guards only the upper end:
for `theta < 0` the computed index is negative, outside the 36-entry array. -/
theorem c10_bin_index_safety :
    (∀ theta : ℝ, 0 ≤ theta → theta < 2 * Real.pi → 0 ≤ jsBin theta ∧ jsBin theta ≤ 35) ∧
      (∀ theta : ℝ, theta < 0 → jsBin theta < 0) := by
  have hpi := Real.pi_pos
  constructor
  · intro theta h0 _
    refine ⟨le_min ?_ (by norm_num), min_le_right _ _⟩
    rw [Int.floor_nonneg]
    positivity
  · intro theta hneg
    have hq : theta / (2 * Real.pi) * 36 < 0 := by
      have : theta / (2 * Real.pi) < 0 := div_neg_of_neg_of_pos hneg (by linarith)
      linarith
    have hf : ⌊theta / (2 * Real.pi) * 36⌋ < 0 := by
      rw [Int.floor_lt]
      exact_mod_cast hq
    calc jsBin theta ≤ ⌊theta / (2 * Real.pi) * 36⌋ := min_le_left _ _
      _ < 0 := hf

/-- Witness for C10 at `theta = 0` and `theta = -1`. -/
theorem c10_bin_index_safety_witness :
    (0 ≤ jsBin 0 ∧ jsBin 0 ≤ 35) ∧ jsBin (-1) < 0 :=
  ⟨c10_bin_index_safety.1 0 le_rfl (by positivity),
   c10_bin_index_safety.2 (-1) (by norm_num)⟩

/-! ## Reachable-state invariants -/

theorem two_pi_pos : (0 : ℝ) < 2 * Real.pi := by
  have := Real.pi_pos
  linarith

theorem goldenAngle_nonneg : (0 : ℝ) ≤ GOLDEN_ANGLE := by
  unfold GOLDEN_ANGLE
  have := Real.pi_pos
  positivity

/-- The inductive invariant: every node's phase lies in `(-2π, 2π)` and every
Titan has frozen `omega = 0` and is not a Spark. -/
def GoodNode (nd : Node) : Prop :=
  (-(2 * Real.pi) < nd.theta ∧ nd.theta < 2 * Real.pi) ∧
    (nd.isTitan = true → nd.omega = 0 ∧ nd.isSpark = false)

theorem stepNode_theta_notTitan {n : ℕ} (g : Grid n) (cfg : SimulationConfig)
    (rnd : Fin (n * n) → ℝ × ℝ) (i : Fin (n * n)) (h : (g i).isTitan = false) :
    ∃ t, (-Real.pi < t ∧ t ≤ Real.pi) ∧
      (stepNode g cfg rnd i).theta = if t < 0 then t + 2 * Real.pi else t := by
  unfold stepNode
  simp only [h, Bool.false_eq_true, if_false]
  exact ⟨_, atan2_range _ _, rfl⟩

theorem goodNode_init (u : Fin 7 → ℝ) (hu : ∀ k, 0 ≤ u k ∧ u k < 1) :
    GoodNode (mkInitNode (u 0) (u 1) (u 2) (u 3) (u 4) (u 5) (u 6)) := by
  have hpi := Real.pi_pos
  obtain ⟨h0, h1⟩ := hu 0
  refine ⟨⟨?_, ?_⟩, ?_⟩
  · show -(2 * Real.pi) < u 0 * 2 * Real.pi
    nlinarith
  · show u 0 * 2 * Real.pi < 2 * Real.pi
    nlinarith
  · intro ht
    have h2 : u 1 < 0.01 := of_decide_eq_true ht
    constructor
    · show (if (decide (u 1 < 0.01) : Bool) then (0.0 : ℝ) else _) = 0
      simp [h2]
      norm_num
    · show (!(decide (u 1 < 0.01)) && decide (u 2 < 0.05)) = false
      simp [h2]

theorem goodNode_tick {n : ℕ} (g : Grid n) (cfg : SimulationConfig)
    (rnd : Fin (n * n) → ℝ × ℝ) (hg : ∀ k, GoodNode (g k)) (i : Fin (n * n)) :
    GoodNode (tickGrid g cfg rnd i) := by
  have hpi := Real.pi_pos
  show GoodNode (stepNode g cfg rnd i)
  rcases Bool.eq_false_or_eq_true (g i).isTitan with ht | ht
  · -- Titan branch
    obtain ⟨hrange, htitan⟩ := hg i
    obtain ⟨homega, hspark⟩ := htitan ht
    rw [stepNode_titan g cfg rnd i ht]
    refine ⟨?_, fun _ => ⟨?_, ?_⟩⟩
    · show -(2 * Real.pi) < (g i).theta + (g i).omega * cfg.dt * 0.1 ∧
        (g i).theta + (g i).omega * cfg.dt * 0.1 < 2 * Real.pi
      rw [homega]
      simpa using hrange
    · show (g i).omega = 0
      exact homega
    · show (g i).isSpark = false
      exact hspark
  · -- non-Titan branch
    obtain ⟨t, ⟨ht1, ht2⟩, hth⟩ := stepNode_theta_notTitan g cfg rnd i ht
    constructor
    · rw [hth]
      split_ifs with h <;> constructor <;> linarith
    · intro habs
      rw [(stepNode_flags g cfg rnd i).1, ht] at habs
      exact absurd habs (by simp)

theorem goodNode_ite (c : Prop) [Decidable c] {a b : Node}
    (ha : GoodNode a) (hb : GoodNode b) : GoodNode (if c then a else b) := by
  split_ifs <;> assumption

theorem goodNode_injectCell {n : ℕ} (g : Grid n) (p : InjectionParams)
    (rnd : Fin (n * n) → ℝ) (i : Fin (n * n)) (hg : GoodNode (g i)) :
    GoodNode (injectCell g p rnd i) := by
  have hpi := Real.pi_pos
  obtain ⟨⟨hth1, hth2⟩, htitan⟩ := hg
  have hnode : GoodNode (g i) := ⟨⟨hth1, hth2⟩, htitan⟩
  simp only [injectCell]
  cases hp : p.pattern
  · -- pulse
    refine goodNode_ite _ ?_ hnode
    obtain ⟨ha, hb⟩ := jsMod_range ((g i).theta + Real.sin _ * p.intensity) two_pi_pos
    exact ⟨⟨ha, hb⟩, htitan⟩
  · -- spiral
    refine goodNode_ite _ ?_ hnode
    obtain ⟨ha, hb⟩ := jsMod_range ((g i).theta + atan2 _ _ * p.intensity) two_pi_pos
    exact ⟨⟨ha, hb⟩, htitan⟩
  · -- chaos
    refine goodNode_ite _ ?_ hnode
    obtain ⟨ha, hb⟩ :=
      jsMod_range ((g i).theta + rnd i * 2 * Real.pi * p.intensity) two_pi_pos
    exact ⟨⟨ha, hb⟩, htitan⟩
  · -- stabilize
    refine goodNode_ite _ ?_ hnode
    refine ⟨⟨?_, ?_⟩, htitan⟩
    · show -(2 * Real.pi) < (0 : ℝ)
      linarith
    · show (0 : ℝ) < 2 * Real.pi
      linarith
  · -- unity
    refine goodNode_ite _ ?_ hnode
    refine ⟨⟨?_, ?_⟩, fun ht => ?_⟩
    · show -(2 * Real.pi) < 30 * (Real.pi / 180)
      nlinarith
    · show 30 * (Real.pi / 180) < 2 * Real.pi
      nlinarith
    obtain ⟨homega, hspark⟩ := htitan ht
    refine ⟨?_, hspark⟩
    show (if (g i).isSpark || !(g i).isTitan then (1.0 : ℝ) else (g i).omega) = 0
    rw [hspark, ht]
    simpa using homega
  · -- elysium
    exact goodNode_ite _ hnode hnode

theorem goodNode_elysiumStep {n : ℕ} (cX cY : ℤ) (acc : Grid n) (j : ℕ)
    (hg : ∀ c, GoodNode (acc c)) : ∀ c, GoodNode (elysiumStep cX cY acc j c) := by
  intro c
  unfold elysiumStep
  cases helys : elysiumPlace n cX cY j with
  | none => exact hg c
  | some idx =>
    rcases eq_or_ne c idx with he | he
    · rw [he]
      show GoodNode (Function.update acc idx (titanize (acc idx) j) idx)
      rw [Function.update_same]
      have hGA : 0 ≤ (j : ℝ) * GOLDEN_ANGLE :=
        mul_nonneg (Nat.cast_nonneg j) goldenAngle_nonneg
      obtain ⟨ha, hb⟩ := jsMod_nonneg_lt hGA two_pi_pos
      have hpi := Real.pi_pos
      refine ⟨⟨?_, ?_⟩, fun _ => ⟨rfl, rfl⟩⟩
      · show -(2 * Real.pi) < jsMod ((j : ℝ) * GOLDEN_ANGLE) (2 * Real.pi)
        linarith
      · show jsMod ((j : ℝ) * GOLDEN_ANGLE) (2 * Real.pi) < 2 * Real.pi
        exact hb
    · show GoodNode (Function.update acc idx (titanize (acc idx) j) c)
      rw [Function.update_noteq he]
      exact hg c

theorem goodNode_foldl {n : ℕ} (cX cY : ℤ) :
    ∀ (l : List ℕ) (g : Grid n), (∀ c, GoodNode (g c)) →
      ∀ c, GoodNode ((l.foldl (elysiumStep cX cY) g) c) := by
  intro l
  induction l with
  | nil => exact fun g hg c => hg c
  | cons a t ih =>
    intro g hg c
    rw [List.foldl_cons]
    exact ih _ (goodNode_elysiumStep cX cY g a hg) c

theorem goodNode_inject {n : ℕ} (g : Grid n) (p : InjectionParams)
    (rnd : Fin (n * n) → ℝ) (hg : ∀ k, GoodNode (g k)) :
    ∀ i, GoodNode (injectPattern g p rnd i) := by
  intro i
  unfold injectPattern
  split_ifs with he
  · exact goodNode_foldl _ _ _ g hg i
  · exact goodNode_injectCell g p rnd i (hg i)

/-- Every reachable grid satisfies the inductive invariant. -/
theorem reachable_goodNode {n : ℕ} {g : Grid n} (h : Reachable g) :
    ∀ i, GoodNode (g i) := by
  induction h with
  | init g hg =>
    intro i
    obtain ⟨u, hu, he⟩ := hg i
    rw [he]
    exact goodNode_init u hu
  | tick g cfg rnd hr hc hd ih => exact goodNode_tick g cfg rnd ih
  | inject g p rnd hr hp hd ih => exact goodNode_inject g p rnd ih

/-- The concrete all-zero-draws initial grid (every node a Titan with phase 0). -/
def wInitGrid (n : ℕ) : Grid n := fun _ => mkInitNode 0 0 0 0 0 0 0

theorem wInitGrid_isInit (n : ℕ) : IsInitGrid (wInitGrid n) :=
  fun _ => ⟨fun _ => 0, fun _ => ⟨le_rfl, by norm_num⟩, rfl⟩

/-- C2 (amended): in every reachable grid state, every node's `theta` lies in
the open interval `(-2π, 2π)`; the original `[0, 2π)` bound fails because the
additive injection patterns use JavaScript's truncated remainder, which is
negative for negative phase arguments. -/
theorem c2_theta_amended {n : ℕ} {g : Grid n} (hr : Reachable g) :
    ∀ i, -(2 * Real.pi) < (g i).theta ∧ (g i).theta < 2 * Real.pi :=
  fun i => (reachable_goodNode hr i).1

/-- Witness for the amended C2 at a concrete reachable grid. -/
theorem c2_theta_amended_witness :
    -(2 * Real.pi) < (wInitGrid 1 ⟨0, by norm_num⟩).theta ∧
      (wInitGrid 1 ⟨0, by norm_num⟩).theta < 2 * Real.pi :=
  c2_theta_amended (Reachable.init _ (wInitGrid_isInit 1)) ⟨0, by norm_num⟩

/-- C4: on a reachable grid, a tick maps every Titan node to the same record
with only `theta` advanced by exactly `omega * dt * 0.1`; the Titan invariant
`omega = 0` then freezes `theta` entirely. -/
theorem c4_titan_frame {n : ℕ} (g : Grid n) (cfg : SimulationConfig)
    (rnd : Fin (n * n) → ℝ × ℝ) (hr : Reachable g) (i : Fin (n * n))
    (ht : (g i).isTitan = true) :
    stepNode g cfg rnd i =
        { g i with theta := (g i).theta + (g i).omega * cfg.dt * 0.1 } ∧
      (g i).omega = 0 ∧ (tickGrid g cfg rnd i).theta = (g i).theta := by
  have homega := ((reachable_goodNode hr i).2 ht).1
  refine ⟨stepNode_titan g cfg rnd i ht, homega, ?_⟩
  show (stepNode g cfg rnd i).theta = _
  rw [stepNode_titan g cfg rnd i ht]
  simp [homega]

/-- Witness for C4: the all-Titan initial grid under one concrete tick. -/
theorem c4_titan_frame_witness :
    (stepNode (wInitGrid 1) wCfg wRnd1 ⟨0, by norm_num⟩ =
        { wInitGrid 1 ⟨0, by norm_num⟩ with
          theta := (wInitGrid 1 ⟨0, by norm_num⟩).theta +
            (wInitGrid 1 ⟨0, by norm_num⟩).omega * wCfg.dt * 0.1 } ∧
      (wInitGrid 1 ⟨0, by norm_num⟩).omega = 0 ∧
      (tickGrid (wInitGrid 1) wCfg wRnd1 ⟨0, by norm_num⟩).theta =
        (wInitGrid 1 ⟨0, by norm_num⟩).theta) :=
  c4_titan_frame (wInitGrid 1) wCfg wRnd1 (Reachable.init _ (wInitGrid_isInit 1))
    ⟨0, by norm_num⟩ (by norm_num [wInitGrid, mkInitNode])

theorem jsMod_neg_pi : jsMod (-Real.pi) (2 * Real.pi) = -Real.pi := by
  have hpi := Real.pi_pos
  have hdiv : -Real.pi / (2 * Real.pi) = -(1 / 2 : ℝ) := by
    rw [div_eq_iff (by positivity : (2 * Real.pi) ≠ 0)]
    ring
  unfold jsMod jsTrunc
  rw [hdiv, if_neg (by norm_num)]
  norm_num

/-- A spiral injection with negative intensity hitting a phase-0 node. -/
def ceSpiralParams : InjectionParams :=
  { targetX := 36, targetY := 36, radius := 1, intensity := -1, pattern := Pattern.spiral }

/-- Chaos-draw stream for the counterexample injection. -/
def ceRnd : Fin (72 * 72) → ℝ := fun _ => 0

/-- The grid after injecting the spiral pattern into the all-zero-draws
initial grid on the 72-wide lattice of the source. -/
def ceGrid : Grid 72 := injectPattern (wInitGrid 72) ceSpiralParams ceRnd

theorem ceGrid_theta : (ceGrid ⟨2627, by norm_num⟩).theta = -Real.pi := by
  have hpi := Real.pi_pos
  have hspir : ceGrid = fun i => injectCell (wInitGrid 72) ceSpiralParams ceRnd i := by
    unfold ceGrid injectPattern
    rw [if_neg (by simp [ceSpiralParams])]
  rw [hspir]
  simp only [injectCell, ceSpiralParams, clampCoord, wInitGrid, mkInitNode]
  norm_num
  rw [atan2_zero_neg (by norm_num : (-1 : ℝ) < 0)]
  exact jsMod_neg_pi

/-- C2 is violated by the code: the state reached by injecting `spiral` with
intensity `-1` at the grid centre of the all-zero-draws initial grid is
reachable, yet the node one cell left of centre ends with `theta = -π < 0`,
outside `[0, 2π)`. -/
theorem c2_counterexample :
    Reachable ceGrid ∧ (ceGrid ⟨2627, by norm_num⟩).theta < 0 := by
  constructor
  · exact Reachable.inject _ _ _ (Reachable.init _ (wInitGrid_isInit 72))
      (by norm_num [ValidParams, ceSpiralParams])
      (fun i => by norm_num [ceRnd])
  · rw [ceGrid_theta]
    have := Real.pi_pos
    linarith

/-! ## Stabilize injection (C8) -/

/-- Any cell-to-target distance on an `n`-wide lattice with an in-bounds
target is at most `n·√2`. -/
theorem dist_le_n_sqrt2 {n : ℕ} (x y : ℕ) (cX cY : ℤ)
    (hx : x < n) (hy : y < n) (hcx1 : 0 ≤ cX) (hcx2 : cX ≤ (n : ℤ) - 1)
    (hcy1 : 0 ≤ cY) (hcy2 : cY ≤ (n : ℤ) - 1) :
    Real.sqrt (((x : ℝ) - (cX : ℝ)) * ((x : ℝ) - (cX : ℝ)) +
        ((y : ℝ) - (cY : ℝ)) * ((y : ℝ) - (cY : ℝ))) ≤ (n : ℝ) * Real.sqrt 2 := by
  have hxr : (x : ℝ) ≤ (n : ℝ) - 1 := by
    have : (x : ℝ) + 1 ≤ (n : ℝ) := by exact_mod_cast hx
    linarith
  have hyr : (y : ℝ) ≤ (n : ℝ) - 1 := by
    have : (y : ℝ) + 1 ≤ (n : ℝ) := by exact_mod_cast hy
    linarith
  have hcx1r : (0 : ℝ) ≤ (cX : ℝ) := by exact_mod_cast hcx1
  have hcx2r : (cX : ℝ) ≤ (n : ℝ) - 1 := by exact_mod_cast hcx2
  have hcy1r : (0 : ℝ) ≤ (cY : ℝ) := by exact_mod_cast hcy1
  have hcy2r : (cY : ℝ) ≤ (n : ℝ) - 1 := by exact_mod_cast hcy2
  have hx0 : (0 : ℝ) ≤ (x : ℝ) := Nat.cast_nonneg x
  have hy0 : (0 : ℝ) ≤ (y : ℝ) := Nat.cast_nonneg y
  have h1 : ((x : ℝ) - (cX : ℝ)) * ((x : ℝ) - (cX : ℝ)) ≤ (n : ℝ) * (n : ℝ) := by
    nlinarith
  have h2 : ((y : ℝ) - (cY : ℝ)) * ((y : ℝ) - (cY : ℝ)) ≤ (n : ℝ) * (n : ℝ) := by
    nlinarith
  calc Real.sqrt (((x : ℝ) - (cX : ℝ)) * ((x : ℝ) - (cX : ℝ)) +
        ((y : ℝ) - (cY : ℝ)) * ((y : ℝ) - (cY : ℝ)))
      ≤ Real.sqrt (2 * ((n : ℝ) * (n : ℝ))) := Real.sqrt_le_sqrt (by linarith)
    _ = Real.sqrt 2 * Real.sqrt ((n : ℝ) * (n : ℝ)) := Real.sqrt_mul (by norm_num) _
    _ = Real.sqrt 2 * (n : ℝ) := by rw [Real.sqrt_mul_self (Nat.cast_nonneg n)]
    _ = (n : ℝ) * Real.sqrt 2 := mul_comm _ _

/-- C8 (amended): a `stabilize` injection resets every node to `theta = 0`,
`r = TARGET_AMP` provided `radius ≥ gridSize·√2` (so that the whole grid is
within range even of a corner target); the target coordinates are clamped
into `[0, gridSize-1]`.  The original bound `radius ≥ gridSize` does not
cover the grid for corner targets. -/
theorem c8_stabilize_amended {n : ℕ} (g : Grid n) (p : InjectionParams)
    (rnd : Fin (n * n) → ℝ) (hn : 0 < n) (hp : p.pattern = Pattern.stabilize)
    (hr : (n : ℝ) * Real.sqrt 2 ≤ p.radius) :
    (∀ i, (injectPattern g p rnd i).theta = 0 ∧ (injectPattern g p rnd i).r = TARGET_AMP) ∧
      (0 ≤ clampCoord n p.targetX ∧ clampCoord n p.targetX ≤ (n : ℤ) - 1 ∧
        0 ≤ clampCoord n p.targetY ∧ clampCoord n p.targetY ≤ (n : ℤ) - 1) := by
  have hclamp : ∀ t : ℤ, 0 ≤ clampCoord n t ∧ clampCoord n t ≤ (n : ℤ) - 1 := by
    intro t
    unfold clampCoord
    constructor
    · refine le_min (le_max_right _ _) ?_
      omega
    · exact min_le_right _ _
  refine ⟨?_, (hclamp _).1, (hclamp _).2, (hclamp _).1, (hclamp _).2⟩
  intro i
  have hroute : injectPattern g p rnd i = injectCell g p rnd i := by
    unfold injectPattern
    rw [hp]
    rw [if_neg (by simp)]
  have hx : i.val % n < n := Nat.mod_lt _ hn
  have hy : i.val / n < n := by
    have := i.isLt
    exact Nat.div_lt_of_lt_mul this
  have hdist := dist_le_n_sqrt2 (i.val % n) (i.val / n)
    (clampCoord n p.targetX) (clampCoord n p.targetY) hx hy
    (hclamp p.targetX).1 (hclamp p.targetX).2 (hclamp p.targetY).1 (hclamp p.targetY).2
  rw [hroute]
  simp only [injectCell, hp]
  rw [if_pos (le_trans hdist hr)]
  exact ⟨rfl, rfl⟩

/-- Witness for the amended C8 on a concrete 2-wide grid. -/
theorem c8_stabilize_amended_witness :
    (∀ i, (injectPattern (n := 2) (fun _ => wNode)
          { targetX := 5, targetY := -3, radius := 4, intensity := 0,
            pattern := Pattern.stabilize } (fun _ => 0) i).theta = 0 ∧
        (injectPattern (n := 2) (fun _ => wNode)
          { targetX := 5, targetY := -3, radius := 4, intensity := 0,
            pattern := Pattern.stabilize } (fun _ => 0) i).r = TARGET_AMP) ∧
      (0 ≤ clampCoord 2 5 ∧ clampCoord 2 5 ≤ (2 : ℤ) - 1 ∧
        0 ≤ clampCoord 2 (-3) ∧ clampCoord 2 (-3) ≤ (2 : ℤ) - 1) :=
  c8_stabilize_amended (fun _ => wNode) _ (fun _ => 0) (by norm_num) rfl
    (by
      have hs := Real.sq_sqrt (show (0 : ℝ) ≤ 2 by norm_num)
      have hnn := Real.sqrt_nonneg 2
      have h2 : Real.sqrt 2 ≤ 2 := by nlinarith
      push_cast
      nlinarith)

/-- Grid with constant phase 1 used for the C8 counterexample. -/
def ceThetaOneGrid : Grid 72 :=
  fun _ => { theta := 1, omega := 0, r := 1, alpha := 0, isTitan := false, isSpark := false }

/-- Corner-targeted stabilize command with `radius = gridSize = 72`. -/
def ceStabParams : InjectionParams :=
  { targetX := 0, targetY := 0, radius := 72, intensity := 0, pattern := Pattern.stabilize }

/-- C8 as stated is false: with target `(0,0)` and `radius = 72 = gridSize`,
the opposite corner node (71,71) is at distance `71·√2 > 72` and keeps its
old phase `1 ≠ 0`. -/
theorem c8_counterexample :
    (injectPattern ceThetaOneGrid ceStabParams ceRnd ⟨5183, by norm_num⟩).theta = 1 ∧
      (1 : ℝ) ≠ 0 := by
  refine ⟨?_, by norm_num⟩
  have hroute : injectPattern ceThetaOneGrid ceStabParams ceRnd =
      fun i => injectCell ceThetaOneGrid ceStabParams ceRnd i := by
    unfold injectPattern
    rw [if_neg (by simp [ceStabParams])]
  rw [hroute]
  simp only [injectCell, ceStabParams, clampCoord, ceThetaOneGrid]
  norm_num
  have hgt : (72 : ℝ) < Real.sqrt 10082 := by
    have h72 : (72 : ℝ) = Real.sqrt (72 * 72) := by
      rw [Real.sqrt_mul_self (by norm_num)]
    rw [h72]
    exact Real.sqrt_lt_sqrt (by norm_num) (by norm_num)
  rw [if_neg (not_le.mpr hgt)]

/-! ## Elysium injection (C9) -/

/-- The Titan payload written to every placed elysium cell (all fields fixed
by the overwrite except `theta`). -/
def IsTitanCell (nd : Node) : Prop :=
  nd.isTitan = true ∧ nd.isSpark = false ∧ nd.omega = 0 ∧ nd.r = 1.0 ∧ nd.alpha = 1.0

theorem elysiumFold_not_placed {n : ℕ} (cX cY : ℤ) :
    ∀ (l : List ℕ) (g : Grid n) (c : Fin (n * n)),
      c ∉ l.filterMap (elysiumPlace n cX cY) →
      (l.foldl (elysiumStep cX cY) g) c = g c := by
  intro l
  induction l with
  | nil => intro g c _; rfl
  | cons a t ih =>
    intro g c hc
    rw [List.foldl_cons]
    cases hp : elysiumPlace n cX cY a with
    | none =>
      have hm : c ∉ t.filterMap (elysiumPlace n cX cY) := by
        rw [List.filterMap_cons_none hp] at hc
        exact hc
      rw [ih _ c hm]
      unfold elysiumStep
      rw [hp]
    | some idx =>
      rw [List.filterMap_cons_some hp] at hc
      have hm : c ∉ t.filterMap (elysiumPlace n cX cY) :=
        fun h => hc (List.mem_cons_of_mem _ h)
      have hne : c ≠ idx := fun h => hc (h ▸ List.mem_cons_self _ _)
      rw [ih _ c hm]
      unfold elysiumStep
      rw [hp]
      exact Function.update_noteq hne _ _

theorem elysiumFold_placed {n : ℕ} (cX cY : ℤ) :
    ∀ (l : List ℕ) (g : Grid n) (c : Fin (n * n)),
      c ∈ l.filterMap (elysiumPlace n cX cY) →
      IsTitanCell ((l.foldl (elysiumStep cX cY) g) c) := by
  intro l
  induction l with
  | nil => intro g c hc; simp at hc
  | cons a t ih =>
    intro g c hc
    rw [List.foldl_cons]
    by_cases hmem : c ∈ t.filterMap (elysiumPlace n cX cY)
    · exact ih _ c hmem
    · have hsome : elysiumPlace n cX cY a = some c := by
        cases hp : elysiumPlace n cX cY a with
        | none =>
          rw [List.filterMap_cons_none hp] at hc
          exact absurd hc hmem
        | some idx =>
          rw [List.filterMap_cons_some hp] at hc
          rcases List.mem_cons.mp hc with he | he
          · rw [he]
          · exact absurd he hmem
      rw [elysiumFold_not_placed cX cY t _ c hmem]
      unfold elysiumStep
      rw [hsome]
      show IsTitanCell (Function.update g c (titanize (g c) a) c)
      rw [Function.update_same]
      exact ⟨rfl, rfl, rfl, rfl, rfl⟩

/-- C9: an elysium injection overwrites exactly the cells hit by an in-bounds
phyllotaxis placement — each becomes a Titan with `omega = 0`, `r = 1`,
`alpha = 1`, no Spark flag — leaves every other node bit-identical, and the
number of placed cells is `min 50 (number of placed cells)`, in particular at
most 50. -/
theorem c9_elysium_injection {n : ℕ} (g : Grid n) (p : InjectionParams)
    (rnd : Fin (n * n) → ℝ) (hp : p.pattern = Pattern.elysium) :
    (∀ c ∈ placedCells n (clampCoord n p.targetX) (clampCoord n p.targetY),
        IsTitanCell (injectPattern g p rnd c)) ∧
      (∀ c, c ∉ placedCells n (clampCoord n p.targetX) (clampCoord n p.targetY) →
        injectPattern g p rnd c = g c) ∧
      (placedCells n (clampCoord n p.targetX) (clampCoord n p.targetY)).card =
        min 50 (placedCells n (clampCoord n p.targetX) (clampCoord n p.targetY)).card ∧
      (placedCells n (clampCoord n p.targetX) (clampCoord n p.targetY)).card ≤ 50 := by
  have hroute : injectPattern g p rnd =
      elysiumInject g (clampCoord n p.targetX) (clampCoord n p.targetY) := by
    unfold injectPattern
    rw [hp, if_pos rfl]
  have hcard : (placedCells n (clampCoord n p.targetX) (clampCoord n p.targetY)).card ≤ 50 := by
    calc (placedCells n (clampCoord n p.targetX) (clampCoord n p.targetY)).card
        ≤ ((List.range 50).filterMap
            (elysiumPlace n (clampCoord n p.targetX) (clampCoord n p.targetY))).length :=
          List.toFinset_card_le _
      _ ≤ (List.range 50).length := List.length_filterMap_le _ _
      _ = 50 := List.length_range 50
  rw [hroute]
  refine ⟨?_, ?_, (min_eq_right hcard).symm, hcard⟩
  · intro c hc
    exact elysiumFold_placed _ _ _ g c (List.mem_toFinset.mp hc)
  · intro c hc
    exact elysiumFold_not_placed _ _ _ g c (fun h => hc (List.mem_toFinset.mpr h))

/-- Witness for C9 with a concrete elysium command on the 2-wide grid. -/
theorem c9_elysium_injection_witness :
    (∀ c ∈ placedCells 2 (clampCoord 2 1) (clampCoord 2 1),
        IsTitanCell (injectPattern (n := 2) (fun _ => wNode)
          { targetX := 1, targetY := 1, radius := 0, intensity := 0,
            pattern := Pattern.elysium } (fun _ => 0) c)) ∧
      (∀ c, c ∉ placedCells 2 (clampCoord 2 1) (clampCoord 2 1) →
        injectPattern (n := 2) (fun _ => wNode)
          { targetX := 1, targetY := 1, radius := 0, intensity := 0,
            pattern := Pattern.elysium } (fun _ => 0) c = wNode) ∧
      (placedCells 2 (clampCoord 2 1) (clampCoord 2 1)).card =
        min 50 (placedCells 2 (clampCoord 2 1) (clampCoord 2 1)).card ∧
      (placedCells 2 (clampCoord 2 1) (clampCoord 2 1)).card ≤ 50 :=
  c9_elysium_injection (fun _ => wNode)
    { targetX := 1, targetY := 1, radius := 0, intensity := 0,
      pattern := Pattern.elysium } (fun _ => 0) rfl

/-! ## Metric bounds (C5) -/

theorem sum_sin_cos_sq_le {n : ℕ} (g : Grid n) :
    (∑ i, Real.sin ((g i).theta)) ^ 2 + (∑ i, Real.cos ((g i).theta)) ^ 2 ≤
      ((n * n : ℕ) : ℝ) ^ 2 := by
  set f : Fin (n * n) → ℂ := fun i => ⟨Real.cos ((g i).theta), Real.sin ((g i).theta)⟩ with hf
  have habs : ∀ i, Complex.abs (f i) = 1 := by
    intro i
    rw [hf]
    rw [Complex.abs_apply, Complex.normSq_mk]
    have h := Real.sin_sq_add_cos_sq ((g i).theta)
    rw [show Real.cos ((g i).theta) * Real.cos ((g i).theta) +
        Real.sin ((g i).theta) * Real.sin ((g i).theta) = 1 by nlinarith]
    exact Real.sqrt_one
  have hsum : Complex.abs (∑ i, f i) ≤ ((n * n : ℕ) : ℝ) := by
    calc Complex.abs (∑ i, f i) ≤ ∑ i, Complex.abs (f i) := Complex.abs.sum_le _ _
      _ = ((n * n : ℕ) : ℝ) := by simp [habs]
  have hsq : Complex.normSq (∑ i, f i) ≤ ((n * n : ℕ) : ℝ) ^ 2 := by
    have h1 : Complex.abs (∑ i, f i) ^ 2 ≤ ((n * n : ℕ) : ℝ) ^ 2 := by
      have := Complex.abs.nonneg (∑ i, f i)
      nlinarith
    rwa [Complex.sq_abs] at h1
  have hre : (∑ i, f i).re = ∑ i, Real.cos ((g i).theta) := by
    rw [Complex.re_sum]
  have him : (∑ i, f i).im = ∑ i, Real.sin ((g i).theta) := by
    rw [Complex.im_sum]
  rw [Complex.normSq_apply, hre, him] at hsq
  nlinarith [hsq]

theorem coherenceOf_bounds {n : ℕ} (g : Grid n) :
    0 ≤ coherenceOf g ∧ coherenceOf g ≤ 1 := by
  refine ⟨Real.sqrt_nonneg _, ?_⟩
  unfold coherenceOf
  rcases eq_or_lt_of_le (show (0 : ℝ) ≤ ((n * n : ℕ) : ℝ) from Nat.cast_nonneg _) with h0 | h0
  · rw [← h0]
    simp
  · have hkey := sum_sin_cos_sq_le g
    have h1 : ((∑ i, Real.sin ((g i).theta)) / ((n * n : ℕ) : ℝ)) ^ 2 +
        ((∑ i, Real.cos ((g i).theta)) / ((n * n : ℕ) : ℝ)) ^ 2 ≤ 1 := by
      rw [div_pow, div_pow, div_add_div_same, div_le_one (by positivity)]
      exact hkey
    calc Real.sqrt (((∑ i, Real.sin ((g i).theta)) / ((n * n : ℕ) : ℝ)) ^ 2 +
          ((∑ i, Real.cos ((g i).theta)) / ((n * n : ℕ) : ℝ)) ^ 2)
        ≤ Real.sqrt 1 := Real.sqrt_le_sqrt h1
      _ = 1 := Real.sqrt_one

theorem entropyTerm_eq_negMulLog {p : ℝ} (hp : 0 ≤ p) :
    entropyTerm p = Real.negMulLog p := by
  unfold entropyTerm
  rcases eq_or_lt_of_le hp with h | h
  · rw [if_neg (by rw [← h]; exact lt_irrefl 0), ← h]
    simp
  · rw [if_pos h, Real.negMulLog]
    ring

theorem negMulLog_le_gibbs {x : ℝ} (hx : 0 ≤ x) :
    Real.negMulLog x ≤ 1 / 36 - x + x * Real.log 36 := by
  rcases eq_or_lt_of_le hx with h | h
  · rw [← h]
    simp
  · have hlog : Real.log (1 / (36 * x)) ≤ 1 / (36 * x) - 1 :=
      Real.log_le_sub_one_of_pos (by positivity)
    have hexp : Real.log (1 / (36 * x)) = -Real.log 36 - Real.log x := by
      rw [one_div, Real.log_inv, Real.log_mul (by norm_num) h.ne']
      ring
    have hrw : Real.negMulLog x = x * Real.log (1 / (36 * x)) + x * Real.log 36 := by
      rw [hexp, Real.negMulLog]
      ring
    have hb : x * Real.log (1 / (36 * x)) ≤ x * (1 / (36 * x) - 1) :=
      mul_le_mul_of_nonneg_left hlog hx
    have hc : x * (1 / (36 * x) - 1) = 1 / 36 - x := by
      field_simp
      ring
    rw [hrw]
    rw [hc] at hb
    linarith

theorem sum_indicator_le_one (z : ℤ) :
    (∑ b : Fin 36, if z = (b : ℤ) then (1 : ℕ) else 0) ≤ 1 := by
  by_cases h : ∃ b0 : Fin 36, z = (b0 : ℤ)
  · obtain ⟨b0, hb0⟩ := h
    rw [Finset.sum_eq_single b0]
    · simp [hb0]
    · intro b _ hne
      rw [if_neg]
      intro hz
      apply hne
      have hv : (b : ℤ) = (b0 : ℤ) := by rw [← hz, ← hb0]
      exact Fin.ext (by exact_mod_cast hv)
    · intro hb
      exact absurd (Finset.mem_univ b0) hb
  · rw [Finset.sum_eq_zero]
    · norm_num
    · intro b _
      rw [if_neg]
      exact fun hz => h ⟨b, hz⟩

theorem binCount_le_total {n : ℕ} (g : Grid n) (b : Fin 36) : binCount g b ≤ n * n := by
  unfold binCount
  calc (∑ i : Fin (n * n), if jsBin (g i).theta = (b : ℤ) then (1 : ℕ) else 0)
      ≤ ∑ _i : Fin (n * n), 1 := Finset.sum_le_sum (fun i _ => by split_ifs <;> norm_num)
    _ = n * n := by simp

theorem sum_binCount_le {n : ℕ} (g : Grid n) : (∑ b : Fin 36, binCount g b) ≤ n * n := by
  unfold binCount
  rw [Finset.sum_comm]
  calc (∑ i : Fin (n * n), ∑ b : Fin 36, if jsBin (g i).theta = (b : ℤ) then (1 : ℕ) else 0)
      ≤ ∑ _i : Fin (n * n), 1 := Finset.sum_le_sum (fun i _ => sum_indicator_le_one _)
    _ = n * n := by simp

theorem log36_ge_one : (1 : ℝ) ≤ Real.log 36 := by
  rw [Real.le_log_iff_exp_le (by norm_num)]
  have := Real.exp_one_lt_d9
  linarith

theorem entropy_sum_nonneg {n : ℕ} (g : Grid n) :
    0 ≤ ∑ b : Fin 36, entropyTerm ((binCount g b : ℝ) / ((n * n : ℕ) : ℝ)) := by
  apply Finset.sum_nonneg
  intro b _
  have hp : (0 : ℝ) ≤ (binCount g b : ℝ) / ((n * n : ℕ) : ℝ) := by positivity
  rw [entropyTerm_eq_negMulLog hp]
  apply Real.negMulLog_nonneg hp
  rcases eq_or_lt_of_le (show (0 : ℝ) ≤ ((n * n : ℕ) : ℝ) from Nat.cast_nonneg _) with h0 | h0
  · rw [← h0, div_zero]
    norm_num
  · rw [div_le_one h0]
    exact_mod_cast binCount_le_total g b

theorem entropy_sum_le_log36 {n : ℕ} (g : Grid n) :
    (∑ b : Fin 36, entropyTerm ((binCount g b : ℝ) / ((n * n : ℕ) : ℝ))) ≤ Real.log 36 := by
  have hterm : ∀ b : Fin 36, entropyTerm ((binCount g b : ℝ) / ((n * n : ℕ) : ℝ)) ≤
      1 / 36 - (binCount g b : ℝ) / ((n * n : ℕ) : ℝ) +
        ((binCount g b : ℝ) / ((n * n : ℕ) : ℝ)) * Real.log 36 := by
    intro b
    rw [entropyTerm_eq_negMulLog (by positivity)]
    exact negMulLog_le_gibbs (by positivity)
  have hsum := Finset.sum_le_sum (fun b (_ : b ∈ Finset.univ) => hterm b)
  have hs1 : (∑ b : Fin 36, (binCount g b : ℝ) / ((n * n : ℕ) : ℝ)) ≤ 1 := by
    rw [← Finset.sum_div]
    rcases eq_or_lt_of_le (show (0 : ℝ) ≤ ((n * n : ℕ) : ℝ) from Nat.cast_nonneg _) with h0 | h0
    · rw [← h0, div_zero]
      norm_num
    · rw [div_le_one h0]
      have := sum_binCount_le g
      exact_mod_cast this
  have hs0 : 0 ≤ ∑ b : Fin 36, (binCount g b : ℝ) / ((n * n : ℕ) : ℝ) := by positivity
  have hL := log36_ge_one
  have hexpand : (∑ b : Fin 36, (1 / 36 - (binCount g b : ℝ) / ((n * n : ℕ) : ℝ) +
      ((binCount g b : ℝ) / ((n * n : ℕ) : ℝ)) * Real.log 36)) =
      1 - (∑ b : Fin 36, (binCount g b : ℝ) / ((n * n : ℕ) : ℝ)) +
        (∑ b : Fin 36, (binCount g b : ℝ) / ((n * n : ℕ) : ℝ)) * Real.log 36 := by
    rw [Finset.sum_add_distrib, Finset.sum_sub_distrib, Finset.sum_const, ← Finset.sum_mul]
    simp
  rw [hexpand] at hsum
  nlinarith [hsum, hs1, hs0, hL]

theorem entropyOf_bounds {n : ℕ} (g : Grid n) : 0 ≤ entropyOf g ∧ entropyOf g ≤ 1 := by
  have hL := log36_ge_one
  have hLpos : (0 : ℝ) < Real.log 36 := by linarith
  unfold entropyOf
  constructor
  · exact div_nonneg (entropy_sum_nonneg g) hLpos.le
  · rw [div_le_one hLpos]
    exact entropy_sum_le_log36 g

/-- The recorded coherence is the order parameter of the pre-update grid. -/
theorem tick_coherence {n : ℕ} (g : Grid n) (cfg : SimulationConfig)
    (rnd : Fin (n * n) → ℝ × ℝ) : (tick g cfg rnd).2.1 = coherenceOf g := rfl

/-- The recorded entropy is the normalized histogram entropy of the
already-updated grid. -/
theorem tick_entropy {n : ℕ} (g : Grid n) (cfg : SimulationConfig)
    (rnd : Fin (n * n) → ℝ × ℝ) :
    (tick g cfg rnd).2.2 = entropyOf (tickGrid g cfg rnd) := rfl

/-- C5: every metrics sample ever appended to the rolling history satisfies
`coherence ∈ [0, 1]` and `normalizedEntropy ∈ [0, 1]`; the recorded pair is
the order parameter `√((Σsinθ/N)² + (Σcosθ/N)²)` of a grid snapshot and the
36-bin Shannon histogram entropy of a grid snapshot divided by `log 36`. -/
theorem c5_metric_bounds {n : ℕ} (s0 : SimState n) (cfg : SimulationConfig)
    (rnds : ℕ → Fin (n * n) → ℝ × ℝ)
    (h0 : ∀ m ∈ s0.history,
      0 ≤ m.coherence ∧ m.coherence ≤ 1 ∧ 0 ≤ m.entropy ∧ m.entropy ≤ 1) :
    (∀ k, ∀ m ∈ (runState s0 cfg rnds k).history,
        0 ≤ m.coherence ∧ m.coherence ≤ 1 ∧ 0 ≤ m.entropy ∧ m.entropy ≤ 1) ∧
      (∀ (g : Grid n) (rnd : Fin (n * n) → ℝ × ℝ),
        (tick g cfg rnd).2.1 = coherenceOf g ∧
          (tick g cfg rnd).2.2 = entropyOf (tickGrid g cfg rnd)) := by
  refine ⟨?_, fun g rnd => ⟨rfl, rfl⟩⟩
  intro k
  induction k with
  | zero => exact h0
  | succ k ih =>
    intro m hm
    simp only [runState, tickState] at hm
    rcases List.mem_append.mp hm with h | h
    · exact ih m (List.mem_of_mem_drop h)
    · have hm2 := List.mem_singleton.mp h
      rw [hm2]
      refine ⟨?_, ?_, ?_, ?_⟩
      · show 0 ≤ (tick (runState s0 cfg rnds k).grid cfg (rnds k)).2.1
        rw [tick_coherence]
        exact (coherenceOf_bounds _).1
      · show (tick (runState s0 cfg rnds k).grid cfg (rnds k)).2.1 ≤ 1
        rw [tick_coherence]
        exact (coherenceOf_bounds _).2
      · show 0 ≤ (tick (runState s0 cfg rnds k).grid cfg (rnds k)).2.2
        rw [tick_entropy]
        exact (entropyOf_bounds _).1
      · show (tick (runState s0 cfg rnds k).grid cfg (rnds k)).2.2 ≤ 1
        rw [tick_entropy]
        exact (entropyOf_bounds _).2

/-- Witness for C5 with the empty initial history on the one-node grid. -/
theorem c5_metric_bounds_witness :
    (∀ k, ∀ m ∈ (runState { grid := wGrid1, step := 0, history := [] } wCfg
          (fun _ => wRnd1) k).history,
        0 ≤ m.coherence ∧ m.coherence ≤ 1 ∧ 0 ≤ m.entropy ∧ m.entropy ≤ 1) ∧
      (∀ (g : Grid 1) (rnd : Fin (1 * 1) → ℝ × ℝ),
        (tick g wCfg rnd).2.1 = coherenceOf g ∧
          (tick g wCfg rnd).2.2 = entropyOf (tickGrid g wCfg rnd)) :=
  c5_metric_bounds { grid := wGrid1, step := 0, history := [] } wCfg
    (fun _ => wRnd1) (by simp)

/-! ## Metrics snapshot timing (C1) -/

/-- C1 (amended): the recorded coherence is computed from the pre-update
`Σsinθ`/`Σcosθ` sums, but the recorded entropy histogram is computed from the
grid as it is *after* the tick's update (the grid reference is replaced
before the bin loop runs). -/
theorem c1_metrics_snapshot_amended {n : ℕ} (g : Grid n) (cfg : SimulationConfig)
    (rnd : Fin (n * n) → ℝ × ℝ) :
    (tick g cfg rnd).2.1 = coherenceOf g ∧
      (tick g cfg rnd).2.2 = entropyOf (tickGrid g cfg rnd) :=
  ⟨rfl, rfl⟩

/-- High-amplitude node whose phase flips to `π` in one decoupled tick. -/
def ceNodeA : Node :=
  { theta := 0, omega := 0, r := 2, alpha := -1, isTitan := false, isSpark := false }

/-- Equilibrium node whose phase stays `0` in one decoupled tick. -/
def ceNodeB : Node :=
  { theta := 0, omega := 0, r := 1, alpha := 1, isTitan := false, isSpark := false }

/-- 2×2 grid alternating between the two node kinds. -/
def ceMixGrid : Grid 2 := fun i => if i.val % 2 = 0 then ceNodeA else ceNodeB

/-- Decoupled, noiseless configuration with `dt = 1`. -/
def ceCfg : SimulationConfig := { coupling := 0, noise := 0, dt := 1, gridSize := 2 }

/-- Noise draws for the counterexample tick. -/
def ceRnd2 : Fin (2 * 2) → ℝ × ℝ := fun _ => (0, 0)

theorem ceMix_theta_all_zero (k : Fin (2 * 2)) : (ceMixGrid k).theta = 0 := by
  unfold ceMixGrid
  split_ifs <;> rfl

theorem ceMix_stepA (i : Fin (2 * 2)) (hi : i.val % 2 = 0) :
    (stepNode ceMixGrid ceCfg ceRnd2 i).theta = Real.pi := by
  have hpi := Real.pi_pos
  have hA : ceMixGrid i = ceNodeA := by
    unfold ceMixGrid
    rw [if_pos hi]
  simp only [stepNode, ceCfg, ceRnd2, hA, ceNodeA]
  norm_num
  rw [atan2_zero_neg (show (-8 : ℝ) < 0 by norm_num)]
  rw [if_neg (not_lt.mpr hpi.le)]

theorem ceMix_stepB (i : Fin (2 * 2)) (hi : ¬ i.val % 2 = 0) :
    (stepNode ceMixGrid ceCfg ceRnd2 i).theta = 0 := by
  have hB : ceMixGrid i = ceNodeB := by
    unfold ceMixGrid
    rw [if_neg hi]
  simp only [stepNode, ceCfg, ceRnd2, hB, ceNodeB]
  norm_num
  rw [atan2_zero_pos (show (0 : ℝ) < 1 by norm_num)]
  norm_num

theorem jsBin_pi : jsBin Real.pi = 18 := by
  unfold jsBin
  have hpi : Real.pi ≠ 0 := Real.pi_ne_zero
  have h : Real.pi / (2 * Real.pi) * 36 = 18 := by
    field_simp
    ring
  rw [h]
  norm_num

theorem jsBin_zero : jsBin 0 = 0 := by
  unfold jsBin
  norm_num

theorem ce_post_theta :
    ∀ i : Fin (2 * 2), (tickGrid ceMixGrid ceCfg ceRnd2 i).theta =
      if i.val % 2 = 0 then Real.pi else 0 := by
  intro i
  show (stepNode ceMixGrid ceCfg ceRnd2 i).theta = _
  by_cases hi : i.val % 2 = 0
  · rw [if_pos hi, ceMix_stepA i hi]
  · rw [if_neg hi, ceMix_stepB i hi]

theorem binCount_post (b : Fin 36) :
    binCount (tickGrid ceMixGrid ceCfg ceRnd2) b =
      (if (18 : ℤ) = (b : ℤ) then 2 else 0) + (if (0 : ℤ) = (b : ℤ) then 2 else 0) := by
  unfold binCount
  rw [Fin.sum_univ_four]
  rw [show (tickGrid ceMixGrid ceCfg ceRnd2 0).theta = Real.pi from ceMix_stepA 0 (by decide),
    show (tickGrid ceMixGrid ceCfg ceRnd2 1).theta = 0 from ceMix_stepB 1 (by decide),
    show (tickGrid ceMixGrid ceCfg ceRnd2 2).theta = Real.pi from ceMix_stepA 2 (by decide),
    show (tickGrid ceMixGrid ceCfg ceRnd2 3).theta = 0 from ceMix_stepB 3 (by decide)]
  simp only [jsBin_pi, jsBin_zero]
  split_ifs <;> omega

theorem entropyTerm_half : entropyTerm (1 / 2 : ℝ) = Real.log 2 / 2 := by
  unfold entropyTerm
  rw [if_pos (by norm_num)]
  rw [show ((1 : ℝ) / 2) = (2 : ℝ)⁻¹ by norm_num, Real.log_inv]
  ring

theorem entropyOf_post_val :
    entropyOf (tickGrid ceMixGrid ceCfg ceRnd2) = Real.log 2 / Real.log 36 := by
  unfold entropyOf
  congr 1
  have hzero : ∀ b ∈ Finset.univ, b ∉ ({0, 18} : Finset (Fin 36)) →
      entropyTerm ((binCount (tickGrid ceMixGrid ceCfg ceRnd2) b : ℝ) /
        ((2 * 2 : ℕ) : ℝ)) = 0 := by
    intro b _ hb
    have hb1 : ¬ (18 : ℤ) = (b : ℤ) := by
      intro h
      apply hb
      have hv : b = (18 : Fin 36) := Fin.ext (by exact_mod_cast h.symm)
      simp [hv]
    have hb2 : ¬ (0 : ℤ) = (b : ℤ) := by
      intro h
      apply hb
      have hv : b = (0 : Fin 36) := Fin.ext (by exact_mod_cast h.symm)
      simp [hv]
    rw [binCount_post, if_neg hb1, if_neg hb2]
    norm_num [entropyTerm]
  rw [← Finset.sum_subset (Finset.subset_univ ({0, 18} : Finset (Fin 36))) hzero]
  rw [Finset.sum_pair (by decide : (0 : Fin 36) ≠ 18)]
  rw [binCount_post, binCount_post]
  rw [if_neg (show ¬ (18 : ℤ) = ((0 : Fin 36) : ℤ) by decide),
    if_pos (show (0 : ℤ) = ((0 : Fin 36) : ℤ) by decide),
    if_pos (show (18 : ℤ) = ((18 : Fin 36) : ℤ) by decide),
    if_neg (show ¬ (0 : ℤ) = ((18 : Fin 36) : ℤ) by decide)]
  rw [show (((0 + 2 : ℕ) : ℝ) / ((2 * 2 : ℕ) : ℝ)) = 1 / 2 by norm_num]
  rw [entropyTerm_half]
  ring

theorem entropyOf_pre_val : entropyOf ceMixGrid = 0 := by
  unfold entropyOf
  rw [show (∑ b : Fin 36, entropyTerm ((binCount ceMixGrid b : ℝ) / ((2 * 2 : ℕ) : ℝ))) =
      0 from ?_, zero_div]
  apply Finset.sum_eq_zero
  intro b _
  have hcount : binCount ceMixGrid b = if (0 : ℤ) = (b : ℤ) then 4 else 0 := by
    unfold binCount
    rw [Fin.sum_univ_four]
    simp only [ceMix_theta_all_zero, jsBin_zero]
    split_ifs <;> norm_num
  rw [hcount]
  split_ifs with h
  · norm_num [entropyTerm, Real.log_one]
  · norm_num [entropyTerm]

/-- C1 is violated by the code: on a concrete decoupled 2×2 grid, the
recorded entropy of the tick differs from the entropy of the pre-update
snapshot — the code bins the already-updated phases. -/
theorem c1_counterexample :
    (tick ceMixGrid ceCfg ceRnd2).2.2 ≠ entropyOf ceMixGrid := by
  rw [tick_entropy, entropyOf_post_val, entropyOf_pre_val]
  have h2 : 0 < Real.log 2 := Real.log_pos (by norm_num)
  have h36 : 0 < Real.log 36 := by linarith [log36_ge_one]
  exact ne_of_gt (div_pos h2 h36)

/-! ## Uniform-grid scenario (C7) and determinism (C6) -/

/-- Scenario A's uniform node: `theta=0, r=0.7071, alpha=0.1, omega=1.0`. -/
def uniNode : Node :=
  { theta := 0, omega := 1.0, r := 0.7071, alpha := 0.1, isTitan := false, isSpark := false }

/-- C7: from a grid of identical `uniNode`s with `coupling = 0`, `noise = 0`,
one tick keeps all nodes mutually identical and records coherence exactly 1. -/
theorem c7_uniform_tick {n : ℕ} (g : Grid n) (cfg : SimulationConfig)
    (rnd : Fin (n * n) → ℝ × ℝ) (hn : 0 < n) (hg : ∀ i, g i = uniNode)
    (hk : cfg.coupling = 0) (hnz : cfg.noise = 0) :
    (∀ i j, tickGrid g cfg rnd i = tickGrid g cfg rnd j) ∧
      (tick g cfg rnd).2.1 = 1 := by
  constructor
  · intro i j
    show stepNode g cfg rnd i = stepNode g cfg rnd j
    simp only [stepNode, hg, hk, hnz, uniNode, mul_zero, zero_mul, add_zero, zero_add,
      Bool.false_eq_true, if_false, sub_self]
  · rw [tick_coherence]
    have hsin : (∑ i : Fin (n * n), Real.sin ((g i).theta)) = 0 := by
      simp [hg, uniNode]
    have hcos : (∑ i : Fin (n * n), Real.cos ((g i).theta)) = ((n * n : ℕ) : ℝ) := by
      simp [hg, uniNode]
    have hNne : ((n * n : ℕ) : ℝ) ≠ 0 := by
      have h1 : 0 < n * n := Nat.mul_pos hn hn
      exact ne_of_gt (by exact_mod_cast h1)
    unfold coherenceOf
    rw [hsin, hcos, zero_div, div_self hNne]
    norm_num

/-- Witness for C7 on the concrete one-node grid. -/
theorem c7_uniform_tick_witness :
    (∀ i j, tickGrid (n := 1) (fun _ => uniNode) wCfg wRnd1 i =
        tickGrid (n := 1) (fun _ => uniNode) wCfg wRnd1 j) ∧
      (tick (n := 1) (fun _ => uniNode) wCfg wRnd1).2.1 = 1 :=
  c7_uniform_tick (fun _ => uniNode) wCfg wRnd1 (by norm_num) (fun _ => rfl) rfl rfl

theorem stepNode_noise_free {n : ℕ} (g : Grid n) (cfg : SimulationConfig)
    (hnz : cfg.noise = 0) (r1 r2 : Fin (n * n) → ℝ × ℝ) (i : Fin (n * n)) :
    stepNode g cfg r1 i = stepNode g cfg r2 i := by
  simp only [stepNode, hnz, mul_zero]

theorem tick_noise_free {n : ℕ} (g : Grid n) (cfg : SimulationConfig)
    (hnz : cfg.noise = 0) (r1 r2 : Fin (n * n) → ℝ × ℝ) :
    tick g cfg r1 = tick g cfg r2 := by
  have hgrid : tickGrid g cfg r1 = tickGrid g cfg r2 :=
    funext (fun i => stepNode_noise_free g cfg hnz r1 r2 i)
  simp only [tick, hgrid]

/-- C6: with `noise = 0`, the physics tick is a deterministic function of the
grid, configuration and step counter — whole trajectories (grids, step
counters and metric histories) are independent of the per-tick noise draws. -/
theorem c6_determinism {n : ℕ} (s0 : SimState n) (cfg : SimulationConfig)
    (hnz : cfg.noise = 0) (r1 r2 : ℕ → Fin (n * n) → ℝ × ℝ) :
    ∀ k, runState s0 cfg r1 k = runState s0 cfg r2 k := by
  intro k
  induction k with
  | zero => rfl
  | succ k ih =>
    show tickState (runState s0 cfg r1 k) cfg (r1 k) =
      tickState (runState s0 cfg r2 k) cfg (r2 k)
    rw [ih]
    unfold tickState
    rw [tick_noise_free _ cfg hnz (r1 k) (r2 k)]

/-- Witness for C6: two different draw streams, identical three-tick
trajectories. -/
theorem c6_determinism_witness :
    runState { grid := wGrid1, step := 0, history := [] } wCfg
        (fun _ _ => (0, 0)) 3 =
      runState { grid := wGrid1, step := 0, history := [] } wCfg
        (fun _ _ => (0.5, 0.25)) 3 :=
  c6_determinism { grid := wGrid1, step := 0, history := [] } wCfg rfl
    (fun _ _ => (0, 0)) (fun _ _ => (0.5, 0.25)) 3

end Shem
